import Mathlib

/-!
Verification of the pyX-MCP client core: the rate-limit backoff policy, the
media upload pipeline (validation, category inference, chunked append,
processing poll loop), the thread composer (segmentation and sequential
posting), and the npm setup bootstrap script.

The Python package implementing the core is not shipped in this tree (only
its documentation and the Node.js setup scripts are), so the core
components are modelled from the specification text; the setup script is
embedded from lib/setup.js.
-/

/-! ## RateLimitPolicy -/

/-- Modelled from the spec: policy constants of RateLimitPolicy (section 4.1).
Safety margin default 1 s, base delay default 1 s, max delay default 60 s,
maximum attempt count default 5. -/
structure RateLimitConfig where
  safetyMarginSecs : Nat
  baseDelaySecs : Nat
  maxDelaySecs : Nat
  maxAttempts : Nat
deriving DecidableEq

/-- Modelled from the spec: the default policy constants. -/
def defaultRateLimitConfig : RateLimitConfig := ⟨1, 1, 60, 5⟩

/-- Modelled from the spec: a BackoffDecision is a wait duration plus the
boolean retry-permitted flag (section 3 data model). -/
structure BackoffDecision where
  waitSecs : Int
  permitted : Bool
deriving DecidableEq

/-- Modelled from the spec: the exponential-backoff delay before jitter,
base delay doubled per attempt, capped at the maximum delay. -/
def expDelay (cfg : RateLimitConfig) (attempts : Nat) : Nat :=
  min (cfg.baseDelaySecs * 2 ^ attempts) cfg.maxDelaySecs

/-- Modelled from the spec: computeBackoff of rate_limit.py (described in the
planning documents as unimplemented; section 4.1 defines the intended
policy). If a reset time is present the wait is max 0 (reset - now) plus the
safety margin; otherwise exponential backoff inflated by a drawn jitter
percentage (the random draw is passed in as jitterPct, at most 20 by the
policy). Retry is permitted exactly when attempts so far are below the
maximum attempt count. -/
def computeBackoff (cfg : RateLimitConfig) (resetTime : Option Int) (now : Int)
    (attempts : Nat) (jitterPct : Nat) : BackoffDecision :=
  let wait : Int :=
    match resetTime with
    | some reset => max 0 (reset - now) + (cfg.safetyMarginSecs : Int)
    | none => ((expDelay cfg attempts * (100 + jitterPct)) / 100 : Nat)
  ⟨wait, decide (attempts < cfg.maxAttempts)⟩

/-! ## Chunked append (APPENDING phase) -/

/-- Modelled from the spec: the sequence of append-chunk calls for a file of
a given total byte size, each pair carrying the chunk sequence index and the
chunk byte length. Structural fuel bounds the recursion; fuel equal to the
total size is always sufficient because every emitted chunk is non-empty. -/
def appendCallsGo (chunkSize : Nat) : Nat → Nat → Nat → List (Nat × Nat)
  | 0, _, _ => []
  | fuel + 1, idx, total =>
    if total = 0 then []
    else if total ≤ chunkSize then [(idx, total)]
    else (idx, chunkSize) :: appendCallsGo chunkSize fuel (idx + 1) (total - chunkSize)

/-- Modelled from the spec: the append-chunk call sequence for a whole file,
indices starting at zero. -/
def appendCalls (chunkSize total : Nat) : List (Nat × Nat) :=
  appendCallsGo chunkSize total 0 total

theorem appendCallsGo_spec (chunkSize : Nat) (hc : 0 < chunkSize) :
    ∀ fuel idx total, total ≤ fuel →
      (appendCallsGo chunkSize fuel idx total).map Prod.fst =
        List.range' idx (appendCallsGo chunkSize fuel idx total).length ∧
      ((appendCallsGo chunkSize fuel idx total).map Prod.snd).sum = total ∧
      (∀ p ∈ appendCallsGo chunkSize fuel idx total, 0 < p.2 ∧ p.2 ≤ chunkSize) := by
  intro fuel
  induction fuel with
  | zero =>
    intro idx total htot
    interval_cases total
    simp [appendCallsGo]
  | succ n ih =>
    intro idx total htot
    by_cases h0 : total = 0
    · simp [appendCallsGo, h0]
    · by_cases hle : total ≤ chunkSize
      · simp [appendCallsGo, h0, hle, List.range']
        omega
      · have hrec := ih (idx + 1) (total - chunkSize) (by omega)
        simp only [appendCallsGo, if_neg h0, if_neg hle, List.map_cons, List.length_cons,
          List.sum_cons, List.mem_cons]
        refine ⟨?_, ?_, ?_⟩
        · rw [List.range'_succ, hrec.1]
        · rw [hrec.2.1]; omega
        · intro p hp
          rcases hp with hp | hp
          · subst hp; exact ⟨hc, le_refl _⟩
          · exact hrec.2.2 p hp

/-- C6: for every quota-exceeded signal, the BackoffDecision wait duration is
non-negative; with a reset time present it equals max 0 (reset - now) plus
the safety margin; with no reset time it is the exponential delay
min (base * 2 ^ attempts) cap inflated by the drawn jitter of at most 20
percent, hence between the exponential delay and 120 percent of it. -/
theorem computeBackoff_wait_spec (cfg : RateLimitConfig) (resetTime : Option Int)
    (now : Int) (attempts jitterPct : Nat) :
    0 ≤ (computeBackoff cfg resetTime now attempts jitterPct).waitSecs ∧
    (∀ reset, resetTime = some reset →
      (computeBackoff cfg resetTime now attempts jitterPct).waitSecs =
        max 0 (reset - now) + (cfg.safetyMarginSecs : Int)) ∧
    (resetTime = none → jitterPct ≤ 20 →
      ((expDelay cfg attempts : Int) ≤
          (computeBackoff cfg resetTime now attempts jitterPct).waitSecs ∧
        (computeBackoff cfg resetTime now attempts jitterPct).waitSecs ≤
          ((expDelay cfg attempts * 120 / 100 : Nat) : Int) ∧
        expDelay cfg attempts = min (cfg.baseDelaySecs * 2 ^ attempts) cfg.maxDelaySecs)) := by
  refine ⟨?_, ?_, ?_⟩
  · cases resetTime with
    | none =>
      simp only [computeBackoff]
      positivity
    | some reset =>
      simp only [computeBackoff]
      have : (0 : Int) ≤ max 0 (reset - now) := le_max_left 0 _
      positivity
  · intro reset hr
    subst hr
    simp [computeBackoff]
  · intro hr hj
    subst hr
    simp only [computeBackoff]
    refine ⟨?_, ?_, rfl⟩
    · have h1 : expDelay cfg attempts ≤ expDelay cfg attempts * (100 + jitterPct) / 100 := by
        have : expDelay cfg attempts * 100 ≤ expDelay cfg attempts * (100 + jitterPct) :=
          Nat.mul_le_mul_left _ (by omega)
        calc expDelay cfg attempts = expDelay cfg attempts * 100 / 100 := by omega
          _ ≤ expDelay cfg attempts * (100 + jitterPct) / 100 := Nat.div_le_div_right this
      exact_mod_cast h1
    · have h2 : expDelay cfg attempts * (100 + jitterPct) / 100 ≤
          expDelay cfg attempts * 120 / 100 := by
        have : expDelay cfg attempts * (100 + jitterPct) ≤ expDelay cfg attempts * 120 :=
          Nat.mul_le_mul_left _ (by omega)
        exact Nat.div_le_div_right this
      exact_mod_cast h2

/-- Closed instance of computeBackoff_wait_spec at concrete inputs. -/
theorem computeBackoff_wait_spec_witness :
    (computeBackoff defaultRateLimitConfig (some 30) 0 3 0).waitSecs =
      max 0 ((30 : Int) - 0) + (defaultRateLimitConfig.safetyMarginSecs : Int) :=
  (computeBackoff_wait_spec defaultRateLimitConfig (some 30) 0 3 0).2.1 30 rfl

/-- C7: the retry-permitted flag of a BackoffDecision is true exactly when
the attempts already made are strictly below the configured maximum attempt
count, whose default is 5. -/
theorem computeBackoff_permitted_iff (cfg : RateLimitConfig) (resetTime : Option Int)
    (now : Int) (attempts jitterPct : Nat) :
    ((computeBackoff cfg resetTime now attempts jitterPct).permitted = true ↔
      attempts < cfg.maxAttempts) ∧ defaultRateLimitConfig.maxAttempts = 5 := by
  constructor
  · simp [computeBackoff]
  · rfl

/-- C8: the append-chunk calls of the APPENDING phase carry contiguous
sequence indices starting at 0, every chunk is non-empty and at most the
configured chunk byte size, and the chunk byte lengths sum to the total
file size. -/
theorem appendCalls_chunk_spec (chunkSize total : Nat) (hc : 0 < chunkSize) :
    (appendCalls chunkSize total).map Prod.fst =
      List.range ((appendCalls chunkSize total).length) ∧
    ((appendCalls chunkSize total).map Prod.snd).sum = total ∧
    ∀ p ∈ appendCalls chunkSize total, 0 < p.2 ∧ p.2 ≤ chunkSize := by
  have h := appendCallsGo_spec chunkSize hc total 0 total le_rfl
  refine ⟨?_, h.2.1, h.2.2⟩
  rw [List.range_eq_range']
  exact h.1

/-- Closed instance of appendCalls_chunk_spec at a non-aligned size. -/
theorem appendCalls_chunk_spec_witness :
    (0 < 4 ∧ ((appendCalls 4 10).map Prod.snd).sum = 10) ∧
      appendCalls 4 10 = [(0, 4), (1, 4), (2, 2)] :=
  ⟨⟨by decide, (appendCalls_chunk_spec 4 10 (by decide)).2.1⟩, by decide⟩

/-! ## MediaUploadPipeline -/

/-- Modelled from the spec: the media categories of the remote API. -/
inductive MediaCategory
  | tweetImage
  | tweetGif
  | tweetVideo
deriving DecidableEq

/-- Modelled from the spec: a local input file, reduced to the attributes the
pipeline inspects: MIME type and total byte size. -/
structure MediaFile where
  mime : String
  size : Nat
deriving DecidableEq

/-- Modelled from the spec: the supported MIME set per declared category
(design document section 12: images are jpeg, png, webp, gif; video is
mp4). -/
def supportedMimes : MediaCategory → List String
  | .tweetImage => ["image/jpeg", "image/png", "image/webp", "image/gif"]
  | .tweetGif => ["image/gif"]
  | .tweetVideo => ["video/mp4"]

/-- Modelled from the spec: per-category size caps in bytes (images a fixed
small cap of 5 MiB, videos a large cap of 512 MiB, animated GIF between). -/
def sizeCap : MediaCategory → Nat
  | .tweetImage => 5 * 1024 * 1024
  | .tweetGif => 15 * 1024 * 1024
  | .tweetVideo => 512 * 1024 * 1024

/-- Modelled from the spec: the local synchronous validation check, run
before any remote call; none means the file passes. -/
def validate (f : MediaFile) (declared : MediaCategory) : Option String :=
  if !(supportedMimes declared).contains f.mime then
    some ("unsupported mime type for category")
  else if sizeCap declared < f.size then
    some ("file exceeds category size limit")
  else none

/-- Modelled from the spec: automatic category inference at initiate time;
an animated-image MIME type (image/gif) is routed to the chunked GIF
category even when the caller declared the static-image category. -/
def inferCategory (f : MediaFile) (declared : MediaCategory) : MediaCategory :=
  if f.mime = "image/gif" then .tweetGif else declared

/-- Modelled from the spec: the remote processing states. -/
inductive ProcState
  | pending
  | inProgress
  | succeeded
  | failed
deriving DecidableEq

/-- Modelled from the spec: one snapshot of the remote processing check:
state, optional recommended re-check delay, optional error code and
message. -/
structure ProcessingStatus where
  state : ProcState
  checkAfterSecs : Option Nat
  errorCode : Nat
  errorMessage : String
deriving DecidableEq

/-- Modelled from the spec: the four remote calls of MediaTransport. -/
inductive TransportCall
  | initiate (totalSize : Nat) (category : MediaCategory)
  | appendChunk (seqIndex : Nat) (byteLen : Nat)
  | finalize
  | checkStatus
deriving DecidableEq

/-- Modelled from the spec: the outcome of one uploadMedia invocation;
validationError corresponds to the ValidationError kind, complete carries
the usable media identifier, processingFailed the remote error code and
message, timedOut the deadline-exceeded outcome. -/
inductive UploadResult
  | validationError (msg : String)
  | complete (mediaId : Nat)
  | processingFailed (code : Nat) (msg : String)
  | timedOut
deriving DecidableEq

/-- Modelled from the spec: the configuration surface consumed by the
pipeline: chunk byte size, polling interval default, overall timeout. -/
structure MediaConfig where
  chunkSize : Nat
  pollIntervalSecs : Nat
  timeoutSecs : Nat
deriving DecidableEq

/-- Modelled from the spec: the PROCESSING polling loop. The status oracle
gives the ProcessingStatus returned by the k-th status check. Each
iteration first checks the overall deadline, then polls once: succeeded and
failed are terminal; otherwise the loop sleeps for the recommended delay
(falling back to the configured poll interval) and retries. Elapsed time
advances by the sleep plus one tick for the status call itself, since a
monotonic clock strictly advances across a remote call; structural fuel of
timeoutSecs + 1 is therefore always sufficient, and on fuel exhaustion the
elapsed time has already passed the deadline, so timedOut is returned. The
second component counts the status checks performed. -/
def pollLoopGo (cfg : MediaConfig) (status : Nat → ProcessingStatus) (mediaId : Nat) :
    Nat → Nat → Nat → UploadResult × Nat
  | 0, k, _ => (.timedOut, k)
  | fuel + 1, k, elapsed =>
    if cfg.timeoutSecs < elapsed then (.timedOut, k)
    else
      match (status k).state with
      | .succeeded => (.complete mediaId, k + 1)
      | .failed => (.processingFailed (status k).errorCode (status k).errorMessage, k + 1)
      | _ =>
        pollLoopGo cfg status mediaId fuel (k + 1)
          (elapsed + ((status k).checkAfterSecs.getD cfg.pollIntervalSecs) + 1)

/-- Modelled from the spec: the polling loop entered from FINALIZING, with
fresh poll counter and clock. -/
def pollLoop (cfg : MediaConfig) (status : Nat → ProcessingStatus) (mediaId : Nat) :
    UploadResult × Nat :=
  pollLoopGo cfg status mediaId (cfg.timeoutSecs + 1) 0 0

/-- Modelled from the spec: uploadMedia drives one file through validation,
initiate (with inferred category), chunked append, finalize, and, when the
finalize response carries a processing status, the polling loop. It returns
the full list of MediaTransport calls performed together with the outcome.
The finalizeStatus oracle is the processing status attached to the finalize
response (none for images that complete synchronously); the status oracle
feeds the subsequent polls. -/
def uploadMedia (cfg : MediaConfig) (f : MediaFile) (declared : MediaCategory)
    (mediaId : Nat) (finalizeStatus : Option ProcessingStatus)
    (status : Nat → ProcessingStatus) : List TransportCall × UploadResult :=
  match validate f declared with
  | some msg => ([], .validationError msg)
  | none =>
    let cat := inferCategory f declared
    let calls := TransportCall.initiate f.size cat ::
      ((appendCalls cfg.chunkSize f.size).map (fun p => TransportCall.appendChunk p.1 p.2) ++
        [TransportCall.finalize])
    match finalizeStatus with
    | none => (calls, .complete mediaId)
    | some s0 =>
      match s0.state with
      | .succeeded => (calls, .complete mediaId)
      | .failed => (calls, .processingFailed s0.errorCode s0.errorMessage)
      | _ =>
        let r := pollLoop cfg status mediaId
        (calls ++ List.replicate r.2 TransportCall.checkStatus, r.1)

/-- C1: the polling loop always hands exactly one terminal outcome back to
the caller: a status check performed within the deadline and reporting
succeeded yields the COMPLETE outcome immediately; one reporting failed
yields the FAILED outcome carrying the remote error code and message; an
oracle that never reports a terminal state yields TIMED_OUT (the loop never
polls forever); and the loop never produces a validation outcome, so
COMPLETE, FAILED and TIMED_OUT are the only outcomes reachable from
polling. -/
theorem pollLoop_terminal (cfg : MediaConfig) (status : Nat → ProcessingStatus)
    (mediaId : Nat) :
    (∀ fuel k elapsed, elapsed ≤ cfg.timeoutSecs → cfg.timeoutSecs < elapsed + fuel →
      (status k).state = .succeeded →
      pollLoopGo cfg status mediaId fuel k elapsed = (.complete mediaId, k + 1)) ∧
    (∀ fuel k elapsed, elapsed ≤ cfg.timeoutSecs → cfg.timeoutSecs < elapsed + fuel →
      (status k).state = .failed →
      pollLoopGo cfg status mediaId fuel k elapsed =
        (.processingFailed (status k).errorCode (status k).errorMessage, k + 1)) ∧
    (∀ fuel k elapsed,
      (∀ j, (status j).state ≠ .succeeded ∧ (status j).state ≠ .failed) →
      (pollLoopGo cfg status mediaId fuel k elapsed).1 = .timedOut) ∧
    (∀ fuel k elapsed msg,
      (pollLoopGo cfg status mediaId fuel k elapsed).1 ≠ .validationError msg) := by
  refine ⟨?_, ?_, ?_, ?_⟩
  · intro fuel k elapsed hel hfu hst
    match fuel with
    | 0 => omega
    | fuel + 1 =>
      simp [pollLoopGo, Nat.not_lt.mpr hel, hst]
  · intro fuel k elapsed hel hfu hst
    match fuel with
    | 0 => omega
    | fuel + 1 =>
      simp [pollLoopGo, Nat.not_lt.mpr hel, hst]
  · intro fuel
    induction fuel with
    | zero => intro k elapsed hnt; rfl
    | succ n ih =>
      intro k elapsed hnt
      by_cases hel : cfg.timeoutSecs < elapsed
      · simp [pollLoopGo, hel]
      · have hk := hnt k
        cases hst : (status k).state with
        | succeeded => exact absurd hst hk.1
        | failed => exact absurd hst hk.2
        | pending => simpa [pollLoopGo, hel, hst] using ih _ _ hnt
        | inProgress => simpa [pollLoopGo, hel, hst] using ih _ _ hnt
  · intro fuel
    induction fuel with
    | zero => intro k elapsed msg; simp [pollLoopGo]
    | succ n ih =>
      intro k elapsed msg
      by_cases hel : cfg.timeoutSecs < elapsed
      · simp [pollLoopGo, hel]
      · cases hst : (status k).state with
        | succeeded => simp [pollLoopGo, hel, hst]
        | failed => simp [pollLoopGo, hel, hst]
        | pending => simpa [pollLoopGo, hel, hst] using ih _ _ msg
        | inProgress => simpa [pollLoopGo, hel, hst] using ih _ _ msg

/-- Closed instances of pollLoop_terminal: a pending, in-progress, succeeded
status sequence completes after exactly three polls, and a never-terminal
oracle times out. -/
theorem pollLoop_terminal_witness :
    pollLoopGo ⟨1024, 1, 300⟩
        (fun j => if j < 2 then ⟨.pending, some 1, 0, ("")⟩
          else ⟨.succeeded, none, 0, ("")⟩) 7 299 2 4 = (.complete 7, 3) ∧
      (pollLoopGo ⟨1024, 1, 5⟩ (fun _ => ⟨.pending, some 1, 0, ("")⟩) 9 6 0 0).1 =
        .timedOut :=
  ⟨(pollLoop_terminal ⟨1024, 1, 300⟩ _ 7).1 299 2 4 (by decide) (by decide) (by decide),
    (pollLoop_terminal ⟨1024, 1, 5⟩ _ 9).2.2.1 6 0 0 (fun j => ⟨by decide, by decide⟩)⟩

/-- C2: a file whose MIME type is not in the supported set of its declared
category, or whose size exceeds the category cap, makes uploadMedia fail
with a validation error while performing zero MediaTransport calls. -/
theorem uploadMedia_validation_no_calls (cfg : MediaConfig) (f : MediaFile)
    (declared : MediaCategory) (mediaId : Nat) (finalizeStatus : Option ProcessingStatus)
    (status : Nat → ProcessingStatus)
    (h : (supportedMimes declared).contains f.mime = false ∨ sizeCap declared < f.size) :
    ∃ msg, uploadMedia cfg f declared mediaId finalizeStatus status =
      ([], UploadResult.validationError msg) := by
  by_cases hm : (supportedMimes declared).contains f.mime
  · have hs : sizeCap declared < f.size := by
      rcases h with h | h
      · rw [hm] at h; cases h
      · exact h
    have hm' : f.mime ∈ supportedMimes declared := by simpa using hm
    exact ⟨("file exceeds category size limit"), by simp [uploadMedia, validate, hm', hs]⟩
  · have hm' : f.mime ∉ supportedMimes declared := by simpa using hm
    exact ⟨("unsupported mime type for category"), by simp [uploadMedia, validate, hm']⟩

/-- Closed instance of uploadMedia_validation_no_calls: an unsupported MIME
type under the image category triggers a validation error with no remote
call. -/
theorem uploadMedia_validation_no_calls_witness :
    ∃ msg, uploadMedia ⟨1024, 1, 60⟩ ⟨("application/pdf"), 10⟩ .tweetImage 7 none
        (fun _ => ⟨.pending, none, 0, ("")⟩) = ([], UploadResult.validationError msg) :=
  uploadMedia_validation_no_calls ⟨1024, 1, 60⟩ ⟨("application/pdf"), 10⟩ .tweetImage 7 none
    (fun _ => ⟨.pending, none, 0, ("")⟩) (Or.inl (by decide))

/-- C5: an animated-image input (MIME type image/gif) is routed to the
chunked GIF category: the inferred category is tweetGif whatever category
the caller declared, and whenever validation passes the initiate call of
uploadMedia carries the tweetGif category. -/
theorem uploadMedia_gif_routing (cfg : MediaConfig) (f : MediaFile)
    (declared : MediaCategory) (mediaId : Nat) (finalizeStatus : Option ProcessingStatus)
    (status : Nat → ProcessingStatus) (hmime : f.mime = "image/gif") :
    inferCategory f declared = .tweetGif ∧
    (validate f declared = none →
      (uploadMedia cfg f declared mediaId finalizeStatus status).1.head? =
        some (.initiate f.size .tweetGif)) := by
  constructor
  · simp [inferCategory, hmime]
  · intro hv
    cases finalizeStatus with
    | none => simp [uploadMedia, hv, inferCategory, hmime]
    | some s0 =>
      cases hst : s0.state <;>
        simp [uploadMedia, hv, inferCategory, hmime, hst]

/-- Closed instance of uploadMedia_gif_routing: a GIF declared as a static
image is initiated under the GIF category. -/
theorem uploadMedia_gif_routing_witness :
    (uploadMedia ⟨1024, 1, 60⟩ ⟨("image/gif"), 100⟩ .tweetImage 7 none
        (fun _ => ⟨.pending, none, 0, ("")⟩)).1.head? =
      some (.initiate 100 .tweetGif) :=
  (uploadMedia_gif_routing ⟨1024, 1, 60⟩ ⟨("image/gif"), 100⟩ .tweetImage 7 none
    (fun _ => ⟨.pending, none, 0, ("")⟩) rfl).2 (by decide)

/-! ## ThreadComposer: sequential posting -/

/-- Modelled from the spec: the PostClient actions a thread run can perform.
The composer only ever creates posts; deletePost is part of the action
vocabulary so that the no-rollback guarantee is expressible. -/
inductive PostAction
  | createPost (text : String) (replyTo : Option Nat)
  | deletePost (postId : Nat)
deriving DecidableEq

/-- Modelled from the spec: the mutable execution record of one
createThread invocation: successfully created post identifiers in posting
order, the index of the first failure (none if every segment posted), and
the captured error (none if no failure). -/
structure ThreadRun where
  postIds : List Nat
  failedIndex : Option Nat
  error : Option String
deriving DecidableEq

/-- Modelled from the spec: the sequential posting loop. The post oracle is
the final outcome of one segment post after RateLimitPolicy-governed
retries are exhausted: ok with the new post identifier, or error with the
captured error. The loop walks the segments in order threading the
previous post identifier as the reply target, and stops at the first
failure. It returns the created identifiers, the captured error, and the
transcript of PostClient actions attempted. -/
def goThread (post : String → Option Nat → Except String Nat) :
    List String → Option Nat → List Nat × Option String × List PostAction
  | [], _ => ([], none, [])
  | t :: ts, prev =>
    match post t prev with
    | .error e => ([], some e, [.createPost t prev])
    | .ok pid =>
      let r := goThread post ts (some pid)
      (pid :: r.1, r.2.1, .createPost t prev :: r.2.2)

/-- Modelled from the spec: createThread posts the planned segments as a
linked reply chain starting from no reply target, and reports a ThreadRun
as a result value (never an exception), recording the failing index as the
number of successful posts when an error was captured. -/
def createThread (post : String → Option Nat → Except String Nat) (segs : List String) :
    ThreadRun × List PostAction :=
  let r := goThread post segs none
  (⟨r.1, r.2.1.map (fun _ => r.1.length), r.2.1⟩, r.2.2)

theorem goThread_spec (post : String → Option Nat → Except String Nat) :
    ∀ (segs : List String) (prev : Option Nat),
      (goThread post segs prev).2.2 =
        List.zipWith (fun t ro => PostAction.createPost t ro) segs
          (prev :: (goThread post segs prev).1.map some) ∧
      (goThread post segs prev).1.length ≤ segs.length ∧
      ((goThread post segs prev).2.1 = none →
        (goThread post segs prev).1.length = segs.length ∧
        (goThread post segs prev).2.2.length = (goThread post segs prev).1.length) ∧
      (∀ e, (goThread post segs prev).2.1 = some e →
        (goThread post segs prev).1.length < segs.length ∧
        (goThread post segs prev).2.2.length = (goThread post segs prev).1.length + 1) ∧
      (∀ a ∈ (goThread post segs prev).2.2, ∃ t ro, a = PostAction.createPost t ro) := by
  intro segs
  induction segs with
  | nil =>
    intro prev
    simp [goThread]
  | cons t ts ih =>
    intro prev
    cases hp : post t prev with
    | error e =>
      simp [goThread, hp]
    | ok pid =>
      have h := ih (some pid)
      simp only [goThread, hp, List.zipWith_cons_cons, List.map_cons, List.length_cons,
        List.cons.injEq, List.mem_cons]
      refine ⟨⟨by trivial, h.1⟩, by omega, ?_, ?_, ?_⟩
      · intro hnone
        have := h.2.2.1 hnone
        omega
      · intro e he
        have := h.2.2.2.1 e he
        omega
      · intro a ha
        rcases ha with ha | ha
        · exact ⟨t, prev, ha⟩
        · exact h.2.2.2.2 a ha

/-- C3: when a segment post fails permanently, createThread stops
immediately and still returns a result: the post-identifier list is a
strict prefix of the segment plan (its length is below the number of
segments, and with no failure it covers every segment), the recorded
failing index equals the number of successful posts, exactly one more
create action than successful posts was attempted (so no later segment is
tried), the captured error is recorded, and no deletePost action is ever
performed on the already published posts. -/
theorem createThread_halts_on_failure (post : String → Option Nat → Except String Nat)
    (segs : List String) :
    (createThread post segs).1.postIds.length ≤ segs.length ∧
    (∀ e, (createThread post segs).1.error = some e →
      (createThread post segs).1.failedIndex =
          some (createThread post segs).1.postIds.length ∧
        (createThread post segs).1.postIds.length < segs.length ∧
        (createThread post segs).2.length = (createThread post segs).1.postIds.length + 1) ∧
    ((createThread post segs).1.error = none →
      (createThread post segs).1.failedIndex = none ∧
        (createThread post segs).1.postIds.length = segs.length) ∧
    (∀ a ∈ (createThread post segs).2, ∀ pid, a ≠ PostAction.deletePost pid) := by
  have h := goThread_spec post segs none
  refine ⟨h.2.1, ?_, ?_, ?_⟩
  · intro e he
    have hh := h.2.2.2.1 e he
    simp only [createThread] at he ⊢
    refine ⟨?_, hh.1, hh.2⟩
    rw [he]
    rfl
  · intro he
    have hh := h.2.2.1 he
    simp only [createThread] at he ⊢
    rw [he]
    exact ⟨rfl, hh.1⟩
  · intro a ha pid
    simp only [createThread] at ha
    obtain ⟨t, ro, hmk⟩ := h.2.2.2.2 a ha
    rw [hmk]
    intro hcontra
    cases hcontra

/-- Closed instance of createThread_halts_on_failure: three planned segments
whose second post call fails permanently give exactly one successful post
identifier, failure index 1, and exactly two create attempts, so the third
segment is never tried. -/
theorem createThread_halts_on_failure_witness :
    (createThread
        (fun t _ => if t = "b" then Except.error ("duplicate content") else Except.ok 41)
        ["a", "b", "c"]).1.failedIndex = some 1 ∧
      (createThread
        (fun t _ => if t = "b" then Except.error ("duplicate content") else Except.ok 41)
        ["a", "b", "c"]).1.postIds.length < 3 ∧
      (createThread
        (fun t _ => if t = "b" then Except.error ("duplicate content") else Except.ok 41)
        ["a", "b", "c"]).2.length =
        (createThread
          (fun t _ => if t = "b" then Except.error ("duplicate content") else Except.ok 41)
          ["a", "b", "c"]).1.postIds.length + 1 := by
  have h := (createThread_halts_on_failure
    (fun t _ => if t = "b" then Except.error ("duplicate content") else Except.ok 41)
    ["a", "b", "c"]).2.1 ("duplicate content") (by decide)
  refine ⟨?_, h.2.1, h.2.2⟩
  have hlen : (createThread
      (fun t _ => if t = "b" then Except.error ("duplicate content") else Except.ok 41)
      ["a", "b", "c"]).1.postIds.length = 1 := by decide
  rw [h.1, hlen]

/-- C9: createThread posts the segments strictly in plan order as a linked
chain: the transcript of create actions is exactly the segments zipped with
the reply targets none, id 0, id 1, and so on, so the first segment replies
to nothing and every later segment replies to the post identifier returned
for the immediately preceding segment, never to the root post. -/
theorem createThread_linked_chain (post : String → Option Nat → Except String Nat)
    (segs : List String) :
    (createThread post segs).2 =
      List.zipWith (fun t ro => PostAction.createPost t ro) segs
        (none :: (createThread post segs).1.postIds.map some) :=
  (goThread_spec post segs none).1

/-! ## ThreadComposer: segmentation -/

/-- Modelled from the spec: whitespace characters for trimming and for the
whitespace-boundary preference of the splitter. -/
def isWsChar (c : Char) : Bool := c == ' ' || c == '\n' || c == '\t' || c == '\r'

/-- Modelled from the spec: sentence-ending characters for the
sentence-boundary preference of the splitter. -/
def isSentenceEnd (c : Char) : Bool := c == '.' || c == '!' || c == '?'

/-- Modelled from the spec: a paragraph boundary character. -/
def isNewline (c : Char) : Bool := c == '\n'

/-- Index of the last character of the list satisfying the predicate. -/
def lastIdx (p : Char → Bool) : List Char → Option Nat
  | [] => none
  | c :: cs =>
    match lastIdx p cs with
    | some i => some (i + 1)
    | none => if p c then some 0 else none

theorem lastIdx_lt (p : Char → Bool) :
    ∀ (l : List Char) (i : Nat), lastIdx p l = some i → i < l.length := by
  intro l
  induction l with
  | nil => intro i h; cases h
  | cons c cs ih =>
    intro i h
    simp only [lastIdx] at h
    cases hcs : lastIdx p cs with
    | some j =>
      rw [hcs] at h
      cases h
      have := ih j hcs
      simp only [List.length_cons]
      omega
    | none =>
      rw [hcs] at h
      by_cases hp : p c
      · simp [hp] at h
        simp [← h]
      · simp [hp] at h

/-- Modelled from the spec: where to cut a window of at most the limit when
the source does not fit: prefer the last paragraph boundary, then the last
sentence boundary, then the last whitespace, and cut after that character;
with no such boundary fall back to a hard character cut at the end of the
window. -/
def cutPoint (window : List Char) : Nat :=
  match lastIdx isNewline window with
  | some i => i + 1
  | none =>
    match lastIdx isSentenceEnd window with
    | some i => i + 1
    | none =>
      match lastIdx isWsChar window with
      | some i => i + 1
      | none => max 1 window.length

theorem cutPoint_pos (window : List Char) : 1 ≤ cutPoint window := by
  cases h1 : lastIdx isNewline window with
  | some i => simp only [cutPoint, h1]; omega
  | none =>
    cases h2 : lastIdx isSentenceEnd window with
    | some i => simp only [cutPoint, h1, h2]; omega
    | none =>
      cases h3 : lastIdx isWsChar window with
      | some i => simp only [cutPoint, h1, h2, h3]; omega
      | none => simp only [cutPoint, h1, h2, h3]; exact le_max_left 1 _

theorem cutPoint_le (window : List Char) (h : window ≠ []) :
    cutPoint window ≤ window.length := by
  have hlen : 0 < window.length := List.length_pos.mpr h
  cases h1 : lastIdx isNewline window with
  | some i =>
    simp only [cutPoint, h1]
    have := lastIdx_lt _ _ _ h1
    omega
  | none =>
    cases h2 : lastIdx isSentenceEnd window with
    | some i =>
      simp only [cutPoint, h1, h2]
      have := lastIdx_lt _ _ _ h2
      omega
    | none =>
      cases h3 : lastIdx isWsChar window with
      | some i =>
        simp only [cutPoint, h1, h2, h3]
        have := lastIdx_lt _ _ _ h3
        omega
      | none =>
        simp only [cutPoint, h1, h2, h3]
        exact Nat.max_le.mpr ⟨hlen, le_rfl⟩

/-- Modelled from the spec: the splitter. It walks the source, emitting the
largest piece that fits under the limit, cut at the preferred boundary of
the current window; the pieces concatenate back to the source exactly.
Structural fuel bounds the recursion; fuel equal to the source length is
always sufficient because every emitted piece is non-empty. -/
def piecesGo (limit : Nat) : Nat → List Char → List (List Char)
  | 0, _ => []
  | fuel + 1, s =>
    if s = [] then []
    else if s.length ≤ limit then [s]
    else
      let c := cutPoint (s.take limit)
      s.take c :: piecesGo limit fuel (s.drop c)

/-- Modelled from the spec: the untrimmed boundary-respecting cover of the
source text. -/
def pieces (limit : Nat) (s : List Char) : List (List Char) :=
  piecesGo limit s.length s

/-- Modelled from the spec: removal of trailing whitespace. -/
def trimTrailing (l : List Char) : List Char := (l.reverse.dropWhile isWsChar).reverse

/-- Modelled from the spec: removal of leading and trailing whitespace. -/
def trimWs (l : List Char) : List Char := (trimTrailing l).dropWhile isWsChar

/-- Modelled from the spec: the ordered segment list of the splitter: each
piece trimmed of boundary whitespace, pieces that were pure whitespace
dropped so that no segment is empty. -/
def segments (limit : Nat) (s : List Char) : List (List Char) :=
  ((pieces limit s).map trimWs).filter (fun seg => !seg.isEmpty)

theorem piecesGo_flatten (limit : Nat) :
    ∀ (fuel : Nat) (s : List Char), s.length ≤ fuel →
      (piecesGo limit fuel s).flatten = s := by
  intro fuel
  induction fuel with
  | zero =>
    intro s hs
    have : s = [] := List.eq_nil_of_length_eq_zero (by omega)
    simp [piecesGo, this]
  | succ n ih =>
    intro s hs
    by_cases h0 : s = []
    · simp [piecesGo, h0]
    · by_cases hle : s.length ≤ limit
      · simp [piecesGo, h0, hle]
      · have hpos : 1 ≤ cutPoint (s.take limit) := cutPoint_pos _
        have hdrop : (s.drop (cutPoint (s.take limit))).length ≤ n := by
          rw [List.length_drop]
          omega
        simp only [piecesGo, if_neg h0, if_neg hle, List.flatten_cons, ih _ hdrop]
        exact List.take_append_drop _ s

theorem piecesGo_bounds (limit : Nat) (hl : 1 ≤ limit) :
    ∀ (fuel : Nat) (s : List Char), s.length ≤ fuel →
      ∀ q ∈ piecesGo limit fuel s, q ≠ [] ∧ q.length ≤ limit := by
  intro fuel
  induction fuel with
  | zero =>
    intro s hs q hq
    simp [piecesGo] at hq
  | succ n ih =>
    intro s hs q hq
    by_cases h0 : s = []
    · simp [piecesGo, h0] at hq
    · by_cases hle : s.length ≤ limit
      · simp only [piecesGo, if_neg h0, if_pos hle, List.mem_singleton] at hq
        exact ⟨hq ▸ h0, hq ▸ hle⟩
      · have hwin : (s.take limit) ≠ [] := by
          simp only [ne_eq, List.take_eq_nil_iff]
          push_neg
          exact ⟨by omega, h0⟩
        have hwinlen : (s.take limit).length = limit := by
          rw [List.length_take]
          omega
        have hcut : cutPoint (s.take limit) ≤ limit := by
          have := cutPoint_le _ hwin
          omega
        have hpos : 1 ≤ cutPoint (s.take limit) := cutPoint_pos _
        simp only [piecesGo, if_neg h0, if_neg hle, List.mem_cons] at hq
        rcases hq with hq | hq
        · subst hq
          constructor
          · simp only [ne_eq, List.take_eq_nil_iff]
            push_neg
            exact ⟨by omega, h0⟩
          · rw [List.length_take]
            omega
        · have hdrop : (s.drop (cutPoint (s.take limit))).length ≤ n := by
            rw [List.length_drop]
            omega
          exact ih _ hdrop q hq

theorem dropWhile_head_not (p : Char → Bool) :
    ∀ (l : List Char) (c : Char), (l.dropWhile p).head? = some c → p c = false := by
  intro l
  induction l with
  | nil => intro c h; cases h
  | cons a as ih =>
    intro c h
    by_cases hp : p a
    · rw [List.dropWhile_cons_of_pos hp] at h
      exact ih c h
    · rw [List.dropWhile_cons_of_neg hp] at h
      simp at h
      rw [← h]
      simpa using hp

theorem trimWs_length_le (l : List Char) : (trimWs l).length ≤ l.length := by
  unfold trimWs trimTrailing
  calc ((l.reverse.dropWhile isWsChar).reverse.dropWhile isWsChar).length ≤
      (l.reverse.dropWhile isWsChar).reverse.length :=
        (List.dropWhile_suffix isWsChar).length_le
    _ = (l.reverse.dropWhile isWsChar).length := List.length_reverse _
    _ ≤ l.reverse.length := (List.dropWhile_suffix isWsChar).length_le
    _ = l.length := List.length_reverse _

theorem trimWs_head_not (l : List Char) (c : Char)
    (h : (trimWs l).head? = some c) : isWsChar c = false :=
  dropWhile_head_not isWsChar _ c h

theorem trimWs_getLast_not (l : List Char) (c : Char)
    (h : (trimWs l).getLast? = some c) : isWsChar c = false := by
  have hne : trimWs l ≠ [] := by
    intro hnil
    rw [hnil] at h
    cases h
  obtain ⟨t, ht⟩ := List.dropWhile_suffix (l := trimTrailing l) isWsChar
  have hne2 : List.dropWhile isWsChar (trimTrailing l) ≠ [] := hne
  have hlast : (trimTrailing l).getLast? = some c := by
    rw [← ht, List.getLast?_append_of_ne_nil t hne2]
    exact h
  unfold trimTrailing at hlast
  rw [List.getLast?_reverse] at hlast
  exact dropWhile_head_not isWsChar _ c hlast

/-- C4: for every source text and positive limit, the pieces of the
splitter concatenate back exactly to the source (nothing lost or
duplicated, and in particular a single word longer than the limit is hard
cut, not dropped), the segment list consists of exactly those pieces with
boundary whitespace trimmed and pure-whitespace pieces removed, and every
segment is non-empty, at most the limit long, and starts and ends with a
non-whitespace character. -/
theorem segmentation_spec (s : List Char) (limit : Nat) (hl : 1 ≤ limit) :
    (pieces limit s).flatten = s ∧
    segments limit s = ((pieces limit s).map trimWs).filter (fun seg => !seg.isEmpty) ∧
    ∀ seg ∈ segments limit s, seg ≠ [] ∧ seg.length ≤ limit ∧
      (∀ c, seg.head? = some c → isWsChar c = false) ∧
      (∀ c, seg.getLast? = some c → isWsChar c = false) := by
  refine ⟨piecesGo_flatten limit s.length s le_rfl, rfl, ?_⟩
  intro seg hseg
  simp only [segments, List.mem_filter, List.mem_map] at hseg
  obtain ⟨⟨q, hq, hqs⟩, hne⟩ := hseg
  have hb := piecesGo_bounds limit hl s.length s le_rfl q hq
  refine ⟨?_, ?_, ?_, ?_⟩
  · intro hnil
    rw [hnil] at hne
    simp at hne
  · rw [← hqs]
    calc (trimWs q).length ≤ q.length := trimWs_length_le q
      _ ≤ limit := hb.2
  · intro c hc
    exact trimWs_head_not q c (hqs ▸ hc)
  · intro c hc
    exact trimWs_getLast_not q c (hqs ▸ hc)

/-- Closed instance of segmentation_spec: a 12-character single word with
limit 5 is hard cut into covering segments, and a phrase with limit 10 is
covered exactly by its pieces; both shown by applying the theorem and by
direct evaluation. -/
theorem segmentation_spec_witness :
    (pieces 5 (("aaaaaaaaaaaa").toList)).flatten = ("aaaaaaaaaaaa").toList ∧
      segments 5 (("aaaaaaaaaaaa").toList) =
        [("aaaaa").toList, ("aaaaa").toList, ("aa").toList] ∧
      (pieces 10 (("hello there big world").toList)).flatten =
        ("hello there big world").toList :=
  ⟨(segmentation_spec (("aaaaaaaaaaaa").toList) 5 (by decide)).1, by decide,
    (segmentation_spec (("hello there big world").toList) 10 (by decide)).1⟩

/-! ## Setup bootstrap (lib/setup.js) -/

/-- Environment observed by the setup script: whether the uv binary on the
PATH runs successfully, whether .venv/bin/uv exists and runs successfully,
whether the .venv directory exists, whether uv sync exits 0, whether the
curl-based uv installer exits 0, and whether uv verifies after an
install. -/
structure SetupEnv where
  uvOnPath : Bool
  uvBinExists : Bool
  uvBinWorks : Bool
  venvExists : Bool
  uvSyncOk : Bool
  installOk : Bool
  hasUvAfterInstall : Bool
deriving DecidableEq

/-- The observable actions of the setup script that matter to its
contract: log lines, spawning the uv installer, spawning uv sync. -/
inductive SetupAction
  | logMsg (msg : String)
  | runInstallUv
  | runUvSync
deriving DecidableEq

/-- hasUv of lib/setup.js: the PATH uv works, or .venv/bin/uv exists and
works. -/
def hasUv (e : SetupEnv) : Bool := e.uvOnPath || (e.uvBinExists && e.uvBinWorks)

/-- setupPythonEnv of lib/setup.js: return immediately when .venv already
exists, otherwise log and spawn uv sync, rejecting when it exits
non-zero. -/
def setupPythonEnv (e : SetupEnv) : Except String (List SetupAction) :=
  if e.venvExists then .ok []
  else if e.uvSyncOk then
    .ok [.logMsg ("[x-mcp-server] Setting up Python environment..."), .runUvSync,
      .logMsg ("[x-mcp-server] Python environment ready")]
  else .error ("uv sync exited with a non-zero code")

/-- ensureSetup of lib/setup.js: check for uv; when it is missing, either
skip entirely (skipWhenUvMissing), reject (installation disabled), or
install and re-verify; finally set up the Python environment. The ok value
lists the actions performed; error corresponds to a rejected promise. -/
def ensureSetup (e : SetupEnv) (installUvIfMissing skipWhenUvMissing : Bool) :
    Except String (List SetupAction) :=
  if hasUv e then setupPythonEnv e
  else if skipWhenUvMissing then
    .ok [.logMsg ("[x-mcp-server] uv not found during setup; skipping environment bootstrap.")]
  else if !installUvIfMissing then
    .error ("uv is required but automatic installation is disabled")
  else if !e.installOk then
    .error ("uv installation failed")
  else if !e.hasUvAfterInstall then
    .error ("Failed to verify uv installation.")
  else (setupPythonEnv e).map (fun acts =>
    .logMsg ("[x-mcp-server] uv not found, installing...") :: .runInstallUv :: acts)

/-- C10: when ensureSetup runs with skipWhenUvMissing set (as the npm
postinstall script install-python.js invokes it, together with
installUvIfMissing disabled) in an environment with no working uv on the
PATH or at .venv/bin/uv, it returns normally with only a log message: the
uv installer is never spawned and uv sync is never spawned, whatever the
installUvIfMissing flag, so the postinstall step cannot fail for lack of
uv. -/
theorem ensureSetup_skips_without_uv (e : SetupEnv) (installUvIfMissing : Bool)
    (h : hasUv e = false) :
    ensureSetup e installUvIfMissing true =
        .ok [.logMsg ("[x-mcp-server] uv not found during setup; skipping environment bootstrap.")] ∧
      ∀ acts, ensureSetup e installUvIfMissing true = .ok acts →
        SetupAction.runInstallUv ∉ acts ∧ SetupAction.runUvSync ∉ acts := by
  have heq : ensureSetup e installUvIfMissing true =
      .ok [.logMsg ("[x-mcp-server] uv not found during setup; skipping environment bootstrap.")] := by
    simp [ensureSetup, h]
  refine ⟨heq, ?_⟩
  intro acts hacts
  rw [heq] at hacts
  cases hacts
  constructor
  · intro hmem
    simp at hmem
  · intro hmem
    simp at hmem

/-- Closed instance of ensureSetup_skips_without_uv: a machine with no uv
anywhere, no .venv, as the postinstall invocation sees it. -/
theorem ensureSetup_skips_without_uv_witness :
    ensureSetup ⟨false, false, false, false, true, true, true⟩ false true =
      .ok [.logMsg ("[x-mcp-server] uv not found during setup; skipping environment bootstrap.")] :=
  (ensureSetup_skips_without_uv ⟨false, false, false, false, true, true, true⟩ false
    (by decide)).1
